import Mathlib

/-!
# Verification of the dianna masking utilities (`dianna.utils.maskers`)

The repository exposes three operations over in-memory numeric arrays:

* `generate_masks(input_data, number_of_masks, p_keep)` — a batch of boolean
  occlusion masks over the cells of `input_data`;
* `generate_channel_masks(input_data, number_of_masks, p_keep)` — a batch of
  boolean masks grouped per channel (the trailing axis);
* `mask_data(data, masks, mask_type)` — applies a mask batch to an input,
  replacing masked-out cells according to a fill policy (`"mean"`).

The module `dianna/utils/maskers.py` itself is not present under `src/`; only
its test suite (`src/tests/methods/test_maskers.py`) is.  The definitions below
are therefore modelled from the specification, with the concrete expectations
of the test suite (exact quota-based keep counts, clamping so that a mask is
never all-kept or all-masked) fixing the quantization behaviour.

Modelling choices:

* An n-dimensional numpy array is embedded as a `shape : List ℕ` together with
  its flat row-major `data : List α`.  Cell `(i, *idx)` of a batch whose
  elements have `n = shape.prod` cells sits at flat offset `i * n + j`, where
  `j` is the row-major offset of `idx`; the channel index (the index along the
  last axis, of length `C`) of flat offset `j` is `j % C`.
* Numeric values are rationals (`ℚ`), faithfully embedding the exact
  arithmetic the tests rely on (`np.mean`, equality comparisons).
* The random-draw source is injected explicitly, as the specification's design
  notes require: `draw i` is the random permutation of cell (resp. channel)
  indices used for mask `i`; the implementation masks its first
  `determineNumberMasked` entries.  `ValidDraw perm n` says `perm` is a
  permutation of `0, …, n-1`.
* Fallible operations return `Except MaskError`.
-/

namespace Maskers

/-- An n-dimensional array: a shape together with flat row-major data. -/
structure NDArray (α : Type) where
  shape : List ℕ
  data : List α
deriving DecidableEq, Repr

/-- The error taxonomy of the specification (§7). -/
inductive MaskError
  | invalidArgument
  | shapeMismatch
  | unknownMaskType
deriving DecidableEq, Repr

/-- Modelled from the spec: the quota of cells (or channels) to mask, out of
`n`, for keep-probability `pKeep` — `round`-style counting
(`round((1 - p_keep) * n)` cells are masked), clamped so that at least one
cell is masked (the `p_keep=0.99` row of the test table expects rate `0.9`,
"mask only 1") and at least one cell is kept (masks must never be all-masked).
This is the private counting helper of `dianna.utils.maskers`, absent from
`src/`. -/
def determineNumberMasked (pKeep : ℚ) (n : ℕ) : ℕ :=
  if (n : ℤ) ≤ round ((1 - pKeep) * (n : ℚ)) then n - 1
  else if round ((1 - pKeep) * (n : ℚ)) ≤ 0 then 1
  else (round ((1 - pKeep) * (n : ℚ))).toNat

/-- The scalar arithmetic mean of all values of an array (`np.mean`). -/
def arrayMean (a : NDArray ℚ) : ℚ := a.data.sum / (a.data.length : ℚ)

/-- `draw` supplies, per mask index, a random permutation of `0, …, n-1`. -/
def ValidDraw (perm : List ℕ) (n : ℕ) : Prop :=
  perm.Nodup ∧ perm.length = n ∧ ∀ x ∈ perm, x < n

instance (perm : List ℕ) (n : ℕ) : Decidable (ValidDraw perm n) := by
  unfold ValidDraw; infer_instance

/-- Modelled from the spec: `generate_masks(input_data, number_of_masks,
p_keep)` of `dianna.utils.maskers` (absent from `src/`).  Validates arguments
(`InvalidArgument` for rank-0 input, `p_keep` outside `(0, 1]`, or negative
`number_of_masks`), then produces `number_of_masks` boolean masks of the
input's shape: mask `i` keeps (`true`) every cell except the first
`determineNumberMasked` cells of the random permutation `draw i`. -/
def generate_masks (input : NDArray ℚ) (numberOfMasks : ℤ) (pKeep : ℚ)
    (draw : ℕ → List ℕ) : Except MaskError (NDArray Bool) :=
  if input.shape.length = 0 then .error .invalidArgument
  else if pKeep ≤ 0 ∨ 1 < pKeep then .error .invalidArgument
  else if numberOfMasks < 0 then .error .invalidArgument
  else
    let n := input.shape.prod
    let k := determineNumberMasked pKeep n
    .ok ⟨numberOfMasks.toNat :: input.shape,
      (List.range numberOfMasks.toNat).flatMap fun i =>
        (List.range n).map fun j => decide (j ∉ (draw i).take k)⟩

/-- Modelled from the spec: `generate_channel_masks(input_data,
number_of_masks, p_keep)` of `dianna.utils.maskers` (absent from `src/`).
Requires rank ≥ 2; draws per mask one boolean per channel index (the trailing
axis, of length `C`) and broadcasts it over every cell sharing that channel:
cell at flat offset `j` belongs to channel `j % C`, and mask `i` masks the
channels listed among the first `determineNumberMasked pKeep C` entries of the
random permutation `draw i`. -/
def generate_channel_masks (input : NDArray ℚ) (numberOfMasks : ℤ) (pKeep : ℚ)
    (draw : ℕ → List ℕ) : Except MaskError (NDArray Bool) :=
  if input.shape.length < 2 then .error .invalidArgument
  else if pKeep ≤ 0 ∨ 1 < pKeep then .error .invalidArgument
  else if numberOfMasks < 0 then .error .invalidArgument
  else
    let C := input.shape.getLastD 1
    let n := input.shape.prod
    let k := determineNumberMasked pKeep C
    .ok ⟨numberOfMasks.toNat :: input.shape,
      (List.range numberOfMasks.toNat).flatMap fun i =>
        (List.range n).map fun j => decide (j % C ∉ (draw i).take k)⟩

/-- Modelled from the spec: `mask_data(data, masks, mask_type)` of
`dianna.utils.maskers` (absent from `src/`).  Checks that the mask batch's
trailing shape equals the input's shape (`ShapeMismatch` otherwise), that the
fill policy is recognized (`UnknownMaskType` otherwise; the recognized set is
`{"mean"}`), then broadcasts the input across the batch axis and overwrites
every cell whose mask cell is `false` with the fill value, computed once per
call from the original unbatched input (`arrayMean` for `"mean"`). -/
def mask_data (input : NDArray ℚ) (masks : NDArray Bool) (maskType : String) :
    Except MaskError (NDArray ℚ) :=
  match masks.shape with
  | [] => .error .shapeMismatch
  | K :: rest =>
    if rest ≠ input.shape then .error .shapeMismatch
    else if maskType ≠ "mean" then .error .unknownMaskType
    else
      let n := input.shape.prod
      let fill := arrayMean input
      .ok ⟨K :: input.shape,
        (List.range K).flatMap fun i =>
          (List.range n).map fun j =>
            if masks.data.getD (i * n + j) true then input.data.getD j 0 else fill⟩

/-! ## Generic lemmas about flat batches

A batch whose elements all have `n` cells is the `flatMap` of its element
lists over `List.range K`; these lemmas recover element `i` (as a slice, or
cell by cell) and count cells. -/

theorem length_flatMap_const {α : Type} (f : ℕ → List α) (n K : ℕ)
    (hf : ∀ i, (f i).length = n) : ((List.range K).flatMap f).length = K * n := by
  induction K with
  | zero => simp
  | succ K ih =>
    rw [List.range_succ, List.flatMap_append, List.length_append, ih]
    simp [hf, Nat.succ_mul]

theorem slice_flatMap_const {α : Type} (f : ℕ → List α) (n K i : ℕ)
    (hf : ∀ i, (f i).length = n) (hi : i < K) :
    (((List.range K).flatMap f).drop (i * n)).take n = f i := by
  induction K with
  | zero => exact absurd hi (Nat.not_lt_zero i)
  | succ K ih =>
    rw [List.range_succ, List.flatMap_append]
    have hlen : ((List.range K).flatMap f).length = K * n := length_flatMap_const f n K hf
    rcases Nat.lt_succ_iff_lt_or_eq.mp hi with h | h
    · have h1 : i * n ≤ ((List.range K).flatMap f).length := by
        rw [hlen]; exact Nat.mul_le_mul_right n h.le
      have h2 : (i + 1) * n ≤ K * n := Nat.mul_le_mul_right n h
      rw [Nat.add_mul, one_mul] at h2
      rw [List.drop_append_of_le_length h1, List.take_append_of_le_length, ih h]
      rw [List.length_drop, hlen]
      omega
    · subst h
      rw [← hlen, List.drop_left]
      simp [List.take_of_length_le (le_of_eq (hf i))]

theorem getD_flatMap_const {α : Type} (f : ℕ → List α) (n K i j : ℕ) (d : α)
    (hf : ∀ i, (f i).length = n) (hi : i < K) (hj : j < n) :
    ((List.range K).flatMap f).getD (i * n + j) d = (f i).getD j d := by
  have hs := slice_flatMap_const f n K i hf hi
  have hj' : j < ((((List.range K).flatMap f).drop (i * n)).take n).length := by
    rw [hs, hf]; exact hj
  calc ((List.range K).flatMap f).getD (i * n + j) d
      = (((List.range K).flatMap f).drop (i * n)).getD j d := by
        simp [List.getD_eq_getElem?_getD, List.getElem?_drop]
    _ = ((((List.range K).flatMap f).drop (i * n)).take n).getD j d := by
        simp [List.getD_eq_getElem?_getD, List.getElem?_take_of_lt hj]
    _ = (f i).getD j d := by rw [hs]

/-! ## Counting lemmas -/

theorem countP_mem_range (s : List ℕ) (n : ℕ) (hnd : s.Nodup)
    (hlt : ∀ x ∈ s, x < n) :
    (List.range n).countP (fun j => decide (j ∈ s)) = s.length := by
  rw [List.countP_eq_length_filter]
  refine List.Perm.length_eq (List.Subperm.antisymm ?_ ?_)
  · refine List.subperm_of_subset ((List.nodup_range n).filter _) ?_
    intro x hx
    have := List.of_mem_filter hx
    simpa using this
  · refine List.subperm_of_subset hnd ?_
    intro x hx
    rw [List.mem_filter]
    exact ⟨List.mem_range.mpr (hlt x hx), by simpa⟩

theorem countP_not_mem_range (s : List ℕ) (n : ℕ) (hnd : s.Nodup)
    (hlt : ∀ x ∈ s, x < n) :
    (List.range n).countP (fun j => decide (j ∉ s)) = n - s.length := by
  have h := (List.filter_append_perm (fun j => decide (j ∈ s)) (List.range n)).length_eq
  rw [List.length_append, List.length_range, ← List.countP_eq_length_filter,
    ← List.countP_eq_length_filter, countP_mem_range s n hnd hlt] at h
  have e : (List.range n).countP (fun a => !decide (a ∈ s))
      = (List.range n).countP (fun j => decide (j ∉ s)) := by
    apply List.countP_congr
    intro x _
    simp
  rw [e] at h
  omega

theorem count_true_map_range (f : ℕ → Bool) (n : ℕ) :
    ((List.range n).map f).count true = (List.range n).countP f := by
  rw [List.count, List.countP_map]
  apply List.countP_congr
  intro x _
  simp [Function.comp]

theorem count_false_map_range (f : ℕ → Bool) (n : ℕ) :
    ((List.range n).map f).count false = (List.range n).countP (fun j => !f j) := by
  rw [List.count, List.countP_map]
  apply List.countP_congr
  intro x _
  cases h : f x <;> simp [Function.comp, h]

/-- Counting a predicate of `j % C` over `R * C` flat offsets repeats the
per-channel count `R` times. -/
theorem countP_mod_range (p : ℕ → Bool) (R C : ℕ) :
    (List.range (R * C)).countP (fun j => p (j % C)) = R * (List.range C).countP p := by
  induction R with
  | zero => simp
  | succ R ih =>
    rw [Nat.succ_mul, List.range_add, List.countP_append, ih, List.countP_map,
      Nat.succ_mul]
    congr 1
    apply List.countP_congr
    intro x hx
    have hxC : x < C := List.mem_range.mp hx
    simp [Function.comp, Nat.add_comm (R * C) x, Nat.add_mul_mod_self_right,
      Nat.mod_eq_of_lt hxC]

/-! ## Properties of the masking quota -/

/-- Regardless of `p_keep`, on an input with at least two cells the quota
masks at least one cell and keeps at least one cell. -/
theorem determineNumberMasked_bounds (pKeep : ℚ) (n : ℕ) (hn : 2 ≤ n) :
    1 ≤ determineNumberMasked pKeep n ∧ determineNumberMasked pKeep n ≤ n - 1 := by
  unfold determineNumberMasked
  split_ifs with h1 h2 <;> omega

/-- The quota never exceeds the cell count. -/
theorem determineNumberMasked_le (pKeep : ℚ) (n : ℕ) (hn : 1 ≤ n) :
    determineNumberMasked pKeep n ≤ n := by
  unfold determineNumberMasked
  split_ifs with h1 h2 <;> omega

/-! ## Inversion lemmas for the three operations -/

theorem generate_masks_ok_of (input : NDArray ℚ) (N : ℤ) (p : ℚ)
    (draw : ℕ → List ℕ) (h1 : ¬input.shape.length = 0) (h2 : 0 < p) (h3 : p ≤ 1)
    (h4 : 0 ≤ N) :
    generate_masks input N p draw = .ok ⟨N.toNat :: input.shape,
      (List.range N.toNat).flatMap fun i =>
        (List.range input.shape.prod).map fun j =>
          decide (j ∉ (draw i).take (determineNumberMasked p input.shape.prod))⟩ := by
  unfold generate_masks
  rw [if_neg h1, if_neg (by push_neg; exact ⟨h2, h3⟩), if_neg (not_lt.mpr h4)]

theorem generate_masks_ok {input : NDArray ℚ} {N : ℤ} {p : ℚ}
    {draw : ℕ → List ℕ} {b : NDArray Bool}
    (h : generate_masks input N p draw = .ok b) :
    ¬input.shape.length = 0 ∧ 0 < p ∧ p ≤ 1 ∧ 0 ≤ N ∧
      b = ⟨N.toNat :: input.shape,
        (List.range N.toNat).flatMap fun i =>
          (List.range input.shape.prod).map fun j =>
            decide (j ∉ (draw i).take (determineNumberMasked p input.shape.prod))⟩ := by
  unfold generate_masks at h
  split_ifs at h with h1 h2 h3
  push_neg at h2
  exact ⟨h1, h2.1, h2.2, not_lt.mp h3, (Except.ok.inj h).symm⟩

theorem generate_channel_masks_ok {input : NDArray ℚ} {N : ℤ} {p : ℚ}
    {draw : ℕ → List ℕ} {b : NDArray Bool}
    (h : generate_channel_masks input N p draw = .ok b) :
    2 ≤ input.shape.length ∧ 0 < p ∧ p ≤ 1 ∧ 0 ≤ N ∧
      b = ⟨N.toNat :: input.shape,
        (List.range N.toNat).flatMap fun i =>
          (List.range input.shape.prod).map fun j =>
            decide (j % input.shape.getLastD 1 ∉
              (draw i).take (determineNumberMasked p (input.shape.getLastD 1)))⟩ := by
  unfold generate_channel_masks at h
  split_ifs at h with h1 h2 h3
  push_neg at h2
  exact ⟨not_lt.mp h1, h2.1, h2.2, not_lt.mp h3, (Except.ok.inj h).symm⟩

theorem mask_data_ok {input : NDArray ℚ} {masks : NDArray Bool} {mt : String}
    {r : NDArray ℚ} (h : mask_data input masks mt = .ok r) :
    ∃ K, masks.shape = K :: input.shape ∧ mt = "mean" ∧
      r = ⟨K :: input.shape,
        (List.range K).flatMap fun i =>
          (List.range input.shape.prod).map fun j =>
            if masks.data.getD (i * input.shape.prod + j) true
            then input.data.getD j 0 else arrayMean input⟩ := by
  unfold mask_data at h
  split at h
  · exact absurd h (by simp)
  · rename_i K rest heq
    split_ifs at h with h1 h2
    rw [not_ne_iff] at h1 h2
    subst h1
    exact ⟨K, heq, h2, (Except.ok.inj h).symm⟩

/-! ## Per-mask slices of generated batches -/

/-- Mask `i` of a `generate_masks` batch, as the flat slice of the batch data,
is the element-wise mask determined by the first `determineNumberMasked`
entries of `draw i`. -/
theorem generate_masks_slice {input : NDArray ℚ} {N : ℤ} {p : ℚ}
    {draw : ℕ → List ℕ} {b : NDArray Bool} {i : ℕ}
    (hb : generate_masks input N p draw = .ok b) (hi : i < N.toNat) :
    (b.data.drop (i * input.shape.prod)).take input.shape.prod
      = (List.range input.shape.prod).map fun j =>
          decide (j ∉ (draw i).take (determineNumberMasked p input.shape.prod)) := by
  obtain ⟨-, -, -, -, hbv⟩ := generate_masks_ok hb
  subst hbv
  exact slice_flatMap_const _ _ _ _ (fun i => by simp) hi

/-- Mask `i` of a `generate_channel_masks` batch, as the flat slice of the
batch data. -/
theorem generate_channel_masks_slice {input : NDArray ℚ} {N : ℤ} {p : ℚ}
    {draw : ℕ → List ℕ} {b : NDArray Bool} {i : ℕ}
    (hb : generate_channel_masks input N p draw = .ok b) (hi : i < N.toNat) :
    (b.data.drop (i * input.shape.prod)).take input.shape.prod
      = (List.range input.shape.prod).map fun j =>
          decide (j % input.shape.getLastD 1 ∉
            (draw i).take (determineNumberMasked p (input.shape.getLastD 1))) := by
  obtain ⟨-, -, -, -, hbv⟩ := generate_channel_masks_ok hb
  subst hbv
  exact slice_flatMap_const _ _ _ _ (fun i => by simp) hi

/-- The cells of a batch element are the entries of its slice. -/
theorem batch_getD_eq_slice_getD {α : Type} (l : List α) (n i j : ℕ) (d : α)
    (hj : j < n) :
    l.getD (i * n + j) d = ((l.drop (i * n)).take n).getD j d := by
  simp [List.getD_eq_getElem?_getD, List.getElem?_take_of_lt hj, List.getElem?_drop]

/-- The first `k` entries of a valid draw are `k` distinct indices below `n`. -/
theorem take_of_validDraw {perm : List ℕ} {n k : ℕ} (hv : ValidDraw perm n)
    (hk : k ≤ n) :
    (perm.take k).Nodup ∧ (perm.take k).length = k ∧ ∀ x ∈ perm.take k, x < n := by
  obtain ⟨hnd, hlen, hlt⟩ := hv
  refine ⟨hnd.sublist (List.take_sublist k perm), ?_, ?_⟩
  · rw [List.length_take, hlen]
    exact Nat.min_eq_left hk
  · intro x hx
    exact hlt x (List.take_subset k perm hx)

/-- Exact count of kept cells in one element-wise mask. -/
theorem count_true_mask (s : List ℕ) (n : ℕ) (hnd : s.Nodup)
    (hlt : ∀ x ∈ s, x < n) :
    ((List.range n).map fun j => decide (j ∉ s)).count true = n - s.length := by
  rw [count_true_map_range]
  exact countP_not_mem_range s n hnd hlt

/-- Exact count of masked cells in one element-wise mask. -/
theorem count_false_mask (s : List ℕ) (n : ℕ) (hnd : s.Nodup)
    (hlt : ∀ x ∈ s, x < n) :
    ((List.range n).map fun j => decide (j ∉ s)).count false = s.length := by
  have e : (List.range n).countP (fun x => !decide (x ∉ s))
      = (List.range n).countP (fun x => decide (x ∈ s)) :=
    List.countP_congr (fun x _ => by by_cases hx : x ∈ s <;> simp [hx])
  rw [count_false_map_range, e]
  exact countP_mem_range s n hnd hlt

/-! ## Concrete quota values on a 10-cell (or 10-channel) input -/

theorem quota_ten_p10 : determineNumberMasked (1/10) 10 = 9 := by
  norm_num [determineNumberMasked, round_eq]; decide

theorem quota_ten_p30 : determineNumberMasked (3/10) 10 = 7 := by
  norm_num [determineNumberMasked, round_eq]; decide

theorem quota_ten_p667 : determineNumberMasked (667/1000) 10 = 3 := by
  norm_num [determineNumberMasked, round_eq]; decide

theorem quota_ten_p99 : determineNumberMasked (99/100) 10 = 1 := by
  norm_num [determineNumberMasked, round_eq]

/-! ## Witnessing draws: an index can land inside or outside the masked
prefix -/

/-- The permutation of `0, …, n-1` that lists `j` first. -/
theorem validDraw_cons_erase {n j : ℕ} (hj : j < n) :
    ValidDraw (j :: (List.range n).erase j) n := by
  have hmem : j ∈ List.range n := List.mem_range.mpr hj
  refine ⟨List.nodup_cons.mpr ⟨(List.nodup_range n).not_mem_erase, (List.nodup_range n).erase j⟩, ?_, ?_⟩
  · rw [List.length_cons, List.length_erase_of_mem hmem, List.length_range]
    omega
  · intro x hx
    rcases List.mem_cons.mp hx with h | h
    · omega
    · exact List.mem_range.mp (List.erase_subset _ _ h)

/-- The permutation of `0, …, n-1` that lists `j` last. -/
theorem validDraw_erase_append {n j : ℕ} (hj : j < n) :
    ValidDraw ((List.range n).erase j ++ [j]) n := by
  have hmem : j ∈ List.range n := List.mem_range.mpr hj
  refine ⟨?_, ?_, ?_⟩
  · rw [List.nodup_append]
    exact ⟨(List.nodup_range n).erase j, List.nodup_singleton j,
      fun x hx => by
        simp only [List.mem_singleton]
        exact (((List.nodup_range n).mem_erase_iff).mp hx).1⟩
  · rw [List.length_append, List.length_erase_of_mem hmem, List.length_range,
      List.length_singleton]
    omega
  · intro x hx
    rcases List.mem_append.mp hx with h | h
    · exact List.mem_range.mp (List.erase_subset _ _ h)
    · rw [List.mem_singleton] at h
      omega

/-- With a nonempty masked prefix, the head of the draw is masked. -/
theorem head_mem_take {k : ℕ} (hk : 1 ≤ k) (a : ℕ) (l : List ℕ) :
    a ∈ (a :: l).take k := by
  obtain ⟨k', rfl⟩ : ∃ k', k = k' + 1 := ⟨k - 1, by omega⟩
  rw [List.take_succ_cons]
  exact List.mem_cons_self a _

/-- If `j` is listed last, it escapes a masked prefix of size at most `n-1`. -/
theorem not_mem_take_erase_append {n j k : ℕ} (hj : j < n) (hk : k ≤ n - 1) :
    j ∉ ((List.range n).erase j ++ [j]).take k := by
  have hmem : j ∈ List.range n := List.mem_range.mpr hj
  have hlen : ((List.range n).erase j).length = n - 1 := by
    rw [List.length_erase_of_mem hmem, List.length_range]
  rw [List.take_append_of_le_length (by omega)]
  intro hmem'
  exact (List.nodup_range n).not_mem_erase (List.take_subset k _ hmem')

/-- In a valid draw, the entry at position `m ≥ k` escapes the masked prefix
of size `k`. -/
theorem get_not_mem_take {perm : List ℕ} {n k m : ℕ} (hv : ValidDraw perm n)
    (hm : m < n) (hkm : k ≤ m) :
    perm.get ⟨m, by rw [hv.2.1]; exact hm⟩ ∉ perm.take k := by
  obtain ⟨hnd, hlen, -⟩ := hv
  intro hmem
  have hd : List.Disjoint (perm.take k) (perm.drop k) := List.disjoint_take_drop hnd le_rfl
  refine hd hmem (List.getElem?_mem (n := m - k) ?_)
  have hm' : m < perm.length := by rw [hlen]; exact hm
  rw [List.getElem?_drop, show k + (m - k) = m by omega,
    List.getElem?_eq_getElem hm']
  simp [List.get_eq_getElem]

/-! ## The claims -/

/-- C1: for every valid input of shape `S` and every number of masks `N`, the
output of `generate_masks` has shape `(N, *S)`, the output of
`generate_channel_masks` has shape `(N, *S)`, and the output of `mask_data`
applied to an input of shape `S` and a batch of `K` masks has shape
`(K, *S)` — the batch axis is prepended and all input axes are preserved
unchanged.  Shapes are witnessed both by the `shape` field and by the length
of the flat data. -/
theorem claim_C1_shapes
    (input1 input2 input3 : NDArray ℚ) (N1 N2 : ℤ) (p1 p2 : ℚ)
    (draw1 draw2 : ℕ → List ℕ) (b1 b2 : NDArray Bool)
    (masks : NDArray Bool) (K : ℕ) (mt : String) (r : NDArray ℚ)
    (h1 : generate_masks input1 N1 p1 draw1 = .ok b1)
    (h2 : generate_channel_masks input2 N2 p2 draw2 = .ok b2)
    (hK : masks.shape = K :: input3.shape)
    (h3 : mask_data input3 masks mt = .ok r) :
    (b1.shape = N1.toNat :: input1.shape ∧
      b1.data.length = N1.toNat * input1.shape.prod) ∧
    (b2.shape = N2.toNat :: input2.shape ∧
      b2.data.length = N2.toNat * input2.shape.prod) ∧
    (r.shape = K :: input3.shape ∧
      r.data.length = K * input3.shape.prod) := by
  obtain ⟨-, -, -, -, hb1⟩ := generate_masks_ok h1
  obtain ⟨-, -, -, -, hb2⟩ := generate_channel_masks_ok h2
  obtain ⟨K', hK', -, hr⟩ := mask_data_ok h3
  have hKK : K' = K := by
    rw [hK] at hK'
    exact (List.cons.inj hK').1.symm
  subst hb1; subst hb2; subst hr; subst hKK
  refine ⟨⟨rfl, ?_⟩, ⟨rfl, ?_⟩, ⟨rfl, ?_⟩⟩ <;>
    exact length_flatMap_const _ _ _ (fun i => by simp)

/-- C2: `mask_data` with `mask_type="mean"`: every cell of the result whose
mask cell is `false` equals the scalar arithmetic mean of the whole original
(unbatched) input array (its sum divided by its cell count), and every cell
whose mask cell is `true` equals the original input value at that position;
the fill value is the same for every batch element, computed from the
original input. -/
theorem claim_C2_mean_fill
    (input : NDArray ℚ) (masks : NDArray Bool) (K : ℕ) (r : NDArray ℚ)
    (i j : ℕ)
    (hK : masks.shape = K :: input.shape)
    (hr : mask_data input masks "mean" = .ok r)
    (hi : i < K) (hj : j < input.shape.prod) :
    r.data.getD (i * input.shape.prod + j) 0 =
      if masks.data.getD (i * input.shape.prod + j) true
      then input.data.getD j 0
      else input.data.sum / (input.data.length : ℚ) := by
  obtain ⟨K', hK', -, hrv⟩ := mask_data_ok hr
  have hKK : K' = K := by
    rw [hK] at hK'
    exact (List.cons.inj hK').1.symm
  subst hKK; subst hrv
  rw [getD_flatMap_const _ input.shape.prod _ i j 0 (fun i => by simp) hi hj]
  simp [List.getD_eq_getElem?_getD, List.getElem?_map, List.getElem?_range hj,
    arrayMean]

/-- C3: in every mask of a batch produced by `generate_channel_masks`, any two
cells sharing the same channel index (the index along the last axis, i.e. the
flat offset modulo the channel count) have the identical boolean value — no
mask ever contains a partially masked channel. -/
theorem claim_C3_channel_uniform
    (input : NDArray ℚ) (N : ℤ) (p : ℚ) (draw : ℕ → List ℕ) (b : NDArray Bool)
    (i j1 j2 : ℕ)
    (hb : generate_channel_masks input N p draw = .ok b)
    (hi : i < N.toNat)
    (hj1 : j1 < input.shape.prod) (hj2 : j2 < input.shape.prod)
    (hc : j1 % input.shape.getLastD 1 = j2 % input.shape.getLastD 1) :
    b.data.getD (i * input.shape.prod + j1) true
      = b.data.getD (i * input.shape.prod + j2) true := by
  obtain ⟨-, -, -, -, hbv⟩ := generate_channel_masks_ok hb
  subst hbv
  rw [getD_flatMap_const _ input.shape.prod _ i j1 true (fun i => by simp) hi hj1,
    getD_flatMap_const _ input.shape.prod _ i j2 true (fun i => by simp) hi hj2]
  simp only [List.getLastD_eq_getLast?] at hc
  simp [List.getD_eq_getElem?_getD, List.getElem?_map, List.getElem?_range hj1,
    List.getElem?_range hj2, hc]

/-- C4: the realized number of kept (`true`) cells in any single generated
mask is a deterministic quantized function of `p_keep` and the cell (or
channel) count — the masked quota `determineNumberMasked`, obtained by
`round((1-p_keep)*n)`-style counting, never a per-cell random draw: every
valid draw yields exactly `n - quota` kept cells (`generate_masks`), and
exactly `R * (C - quota)` kept cells for channel masks on an `R × C` input.
Concretely on 10 cells: `p_keep = 0.1` keeps `1` cell (10%), `p_keep = 0.667`
keeps `7` (70%), `p_keep = 0.99` keeps `9` (90%), and with 10 channels
`p_keep = 0.3` masks `7` channels, keeping 30% of all cells. -/
theorem claim_C4_quantized_counts
    (input1 input2 : NDArray ℚ) (N1 N2 : ℤ) (p1 p2 : ℚ)
    (draw1 draw2 : ℕ → List ℕ) (b1 b2 : NDArray Bool) (i1 i2 R C : ℕ)
    (hn1 : 1 ≤ input1.shape.prod)
    (hv1 : ∀ m, ValidDraw (draw1 m) input1.shape.prod)
    (hb1 : generate_masks input1 N1 p1 draw1 = .ok b1) (hi1 : i1 < N1.toNat)
    (h2shape : input2.shape = [R, C]) (hC : 1 ≤ C)
    (hv2 : ∀ m, ValidDraw (draw2 m) C)
    (hb2 : generate_channel_masks input2 N2 p2 draw2 = .ok b2)
    (hi2 : i2 < N2.toNat) :
    ((b1.data.drop (i1 * input1.shape.prod)).take input1.shape.prod).count true
        = input1.shape.prod - determineNumberMasked p1 input1.shape.prod ∧
    ((b2.data.drop (i2 * (R * C))).take (R * C)).count true
        = R * (C - determineNumberMasked p2 C) ∧
    10 - determineNumberMasked (1/10) 10 = 1 ∧
    10 - determineNumberMasked (667/1000) 10 = 7 ∧
    10 - determineNumberMasked (99/100) 10 = 9 ∧
    determineNumberMasked (3/10) 10 = 7 := by
  refine ⟨?_, ?_, by rw [quota_ten_p10], by rw [quota_ten_p667],
    by rw [quota_ten_p99], quota_ten_p30⟩
  · rw [generate_masks_slice hb1 hi1]
    obtain ⟨hnd, hlen, hlt⟩ := take_of_validDraw (hv1 i1)
      (determineNumberMasked_le p1 input1.shape.prod hn1)
    rw [count_true_mask _ _ hnd hlt, hlen]
  · have hprod : input2.shape.prod = R * C := by
      rw [h2shape]; simp
    have hlast : input2.shape.getLastD 1 = C := by
      rw [h2shape]; simp
    have hslice := generate_channel_masks_slice hb2 hi2
    rw [hprod, hlast] at hslice
    rw [hslice, count_true_map_range,
      countP_mod_range (fun c => decide (c ∉ (draw2 i2).take (determineNumberMasked p2 C))) R C]
    obtain ⟨hnd, hlen, hlt⟩ := take_of_validDraw (hv2 i2)
      (determineNumberMasked_le p2 C hC)
    rw [countP_not_mem_range _ _ hnd hlt, hlen]

/-- C10: every mask produced by `generate_masks` on an input with at least two
cells contains at least one masked (`false`) cell: the number of `false`
cells equals the quota `determineNumberMasked`, which is at least `1` for
every `p_keep`; in particular for `p_keep = 0.99` on a 10-cell input, where
rounding the masked-cell count would give zero, exactly one cell is still
masked. -/
theorem claim_C10_always_masks
    (input : NDArray ℚ) (N : ℤ) (p : ℚ) (draw : ℕ → List ℕ) (b : NDArray Bool)
    (i : ℕ)
    (hn : 2 ≤ input.shape.prod)
    (hv : ∀ m, ValidDraw (draw m) input.shape.prod)
    (hb : generate_masks input N p draw = .ok b) (hi : i < N.toNat) :
    ((b.data.drop (i * input.shape.prod)).take input.shape.prod).count false
        = determineNumberMasked p input.shape.prod ∧
    1 ≤ determineNumberMasked p input.shape.prod ∧
    determineNumberMasked (99/100) 10 = 1 := by
  refine ⟨?_, (determineNumberMasked_bounds p input.shape.prod hn).1,
    quota_ten_p99⟩
  rw [generate_masks_slice hb hi]
  obtain ⟨hnd, hlen, hlt⟩ := take_of_validDraw (hv i)
    (determineNumberMasked_le p input.shape.prod (by omega))
  rw [count_false_mask _ _ hnd hlt, hlen]

/-- C5: `generate_masks` never deterministically returns an all-masked or an
all-kept mask, for any `p_keep` the call accepts: every generated mask on an
input with at least two cells contains at least one kept and at least one
masked cell, and whether any given cell is kept remains an outcome of the
random draw — for every cell there is a valid draw under which it is masked
and a valid draw under which it is kept, with the same `p_keep`. -/
theorem claim_C5_probabilistic
    (input : NDArray ℚ) (N : ℤ) (p : ℚ) (draw : ℕ → List ℕ) (b : NDArray Bool)
    (i : ℕ)
    (hn : 2 ≤ input.shape.prod)
    (hv : ∀ m, ValidDraw (draw m) input.shape.prod)
    (hb : generate_masks input N p draw = .ok b) (hi : i < N.toNat) :
    (∃ j < input.shape.prod,
      b.data.getD (i * input.shape.prod + j) true = true) ∧
    (∃ j < input.shape.prod,
      b.data.getD (i * input.shape.prod + j) true = false) ∧
    (∀ j < input.shape.prod,
      (∃ d b', (∀ m, ValidDraw (d m) input.shape.prod) ∧
        generate_masks input N p d = .ok b' ∧
        b'.data.getD (i * input.shape.prod + j) true = false) ∧
      (∃ d b', (∀ m, ValidDraw (d m) input.shape.prod) ∧
        generate_masks input N p d = .ok b' ∧
        b'.data.getD (i * input.shape.prod + j) true = true)) := by
  obtain ⟨hr0, hp0, hp1, hN0, -⟩ := generate_masks_ok hb
  have hk := determineNumberMasked_bounds p input.shape.prod hn
  have hcell : ∀ (d : ℕ → List ℕ) (b' : NDArray Bool),
      generate_masks input N p d = .ok b' → ∀ j < input.shape.prod,
      b'.data.getD (i * input.shape.prod + j) true
        = decide (j ∉ (d i).take (determineNumberMasked p input.shape.prod)) := by
    intro d b' hb' j hj
    obtain ⟨-, -, -, -, hbv'⟩ := generate_masks_ok hb'
    subst hbv'
    rw [getD_flatMap_const _ input.shape.prod _ i j true (fun i => by simp) hi hj]
    simp [List.getD_eq_getElem?_getD, List.getElem?_map, List.getElem?_range hj]
  have hdlen : (draw i).length = input.shape.prod := (hv i).2.1
  refine ⟨?_, ?_, ?_⟩
  · have hm : input.shape.prod - 1 < input.shape.prod := by omega
    have hmem : (draw i).get ⟨input.shape.prod - 1, by rw [hdlen]; exact hm⟩ ∈ draw i :=
      List.get_mem ..
    refine ⟨_, (hv i).2.2 _ hmem, ?_⟩
    rw [hcell draw b hb _ ((hv i).2.2 _ hmem)]
    exact decide_eq_true (get_not_mem_take (hv i) hm hk.2)
  · have h0 : (0:ℕ) < (draw i).length := by rw [hdlen]; omega
    have hmem : (draw i).get ⟨0, h0⟩ ∈ draw i := List.get_mem ..
    have hy : (draw i).get ⟨0, h0⟩
        ∈ (draw i).take (determineNumberMasked p input.shape.prod) := by
      refine List.getElem?_mem (n := 0) ?_
      rw [List.getElem?_take_of_lt hk.1, List.getElem?_eq_getElem h0]
      simp [List.get_eq_getElem]
    refine ⟨_, (hv i).2.2 _ hmem, ?_⟩
    rw [hcell draw b hb _ ((hv i).2.2 _ hmem)]
    exact decide_eq_false (not_not_intro hy)
  · intro j hj
    constructor
    · refine ⟨fun _ => j :: (List.range input.shape.prod).erase j, _,
        fun _ => validDraw_cons_erase hj,
        generate_masks_ok_of input N p _ hr0 hp0 hp1 hN0, ?_⟩
      rw [hcell _ _ (generate_masks_ok_of input N p _ hr0 hp0 hp1 hN0) j hj]
      exact decide_eq_false (not_not_intro (head_mem_take hk.1 j _))
    · refine ⟨fun _ => (List.range input.shape.prod).erase j ++ [j], _,
        fun _ => validDraw_erase_append hj,
        generate_masks_ok_of input N p _ hr0 hp0 hp1 hN0, ?_⟩
      rw [hcell _ _ (generate_masks_ok_of input N p _ hr0 hp0 hp1 hN0) j hj]
      exact decide_eq_true (not_mem_take_erase_append hj hk.2)

/-- C6: on an input of rank ≥ 1, `generate_masks` returns `InvalidArgument`
if and only if `p_keep` lies outside `(0, 1]` or `number_of_masks` is
negative; in particular `number_of_masks = 0` with a valid `p_keep` is
accepted and returns the empty batch of shape `(0, *input_shape)`. -/
theorem claim_C6_invalid_argument
    (input : NDArray ℚ) (N : ℤ) (p : ℚ) (draw : ℕ → List ℕ)
    (hrank : 1 ≤ input.shape.length) :
    (generate_masks input N p draw = .error .invalidArgument ↔
      p ≤ 0 ∨ 1 < p ∨ N < 0) ∧
    (0 < p → p ≤ 1 → generate_masks input 0 p draw = .ok ⟨0 :: input.shape, []⟩) := by
  constructor
  · unfold generate_masks
    rw [if_neg (by omega)]
    split_ifs with h1 h2
    · exact iff_of_true rfl (by tauto)
    · exact iff_of_true rfl (by tauto)
    · push_neg at h1
      exact iff_of_false (by simp) (by push_neg; exact ⟨h1.1, h1.2, not_lt.mp h2⟩)
  · intro hp0 hp1
    rw [generate_masks_ok_of input 0 p draw (by omega) hp0 hp1 le_rfl]
    rfl

/-- C7: on a well-shaped mask batch, `mask_data` returns `UnknownMaskType`
for every fill-policy string other than the recognized `"mean"`, and never
returns that error when the fill policy is `"mean"`. -/
theorem claim_C7_unknown_mask_type
    (input : NDArray ℚ) (masks : NDArray Bool) (K : ℕ) (mt : String)
    (hK : masks.shape = K :: input.shape) :
    (mt ≠ "mean" → mask_data input masks mt = .error .unknownMaskType) ∧
    mask_data input masks "mean" ≠ .error .unknownMaskType := by
  constructor
  · intro hmt
    unfold mask_data
    rw [hK]
    simp [hmt]
  · unfold mask_data
    rw [hK]
    simp

/-- C9: `generate_masks` depends only on the shape of its first argument,
never on its values: two input arrays of identical shape produce identical
mask batches under the same state of the injected random-draw source. -/
theorem claim_C9_shape_only
    (a b : NDArray ℚ) (N : ℤ) (p : ℚ) (draw : ℕ → List ℕ)
    (hshape : a.shape = b.shape) :
    generate_masks a N p draw = generate_masks b N p draw := by
  unfold generate_masks
  rw [hshape]

/-! ## Concrete instances used by the witnesses -/

/-- A 2-cell univariate input. -/
def wInput : NDArray ℚ := ⟨[2], [3, 4]⟩

/-- A 2×2 multivariate input (2 channels). -/
def wInput2 : NDArray ℚ := ⟨[2, 2], [1, 2, 3, 4]⟩

/-- A fixed state of the random-draw source: the identity permutation. -/
def wDraw : ℕ → List ℕ := fun _ => [0, 1]

/-- A concrete well-shaped batch of one mask over `wInput`. -/
def wMasks : NDArray Bool := ⟨[1, 2], [true, false]⟩

/-- The batch `generate_masks wInput 1 1 wDraw` evaluates to. -/
def wBatch : NDArray Bool :=
  ⟨(1:ℤ).toNat :: wInput.shape,
    (List.range (1:ℤ).toNat).flatMap fun i =>
      (List.range wInput.shape.prod).map fun j =>
        decide (j ∉ (wDraw i).take (determineNumberMasked 1 wInput.shape.prod))⟩

/-- The batch `generate_channel_masks wInput2 1 1 wDraw` evaluates to. -/
def wChBatch : NDArray Bool :=
  ⟨(1:ℤ).toNat :: wInput2.shape,
    (List.range (1:ℤ).toNat).flatMap fun i =>
      (List.range wInput2.shape.prod).map fun j =>
        decide (j % wInput2.shape.getLastD 1 ∉
          (wDraw i).take (determineNumberMasked 1 (wInput2.shape.getLastD 1)))⟩

/-- The batch `mask_data wInput wMasks "mean"` evaluates to. -/
def wResult : NDArray ℚ :=
  ⟨1 :: wInput.shape,
    (List.range 1).flatMap fun i =>
      (List.range wInput.shape.prod).map fun j =>
        if wMasks.data.getD (i * wInput.shape.prod + j) true
        then wInput.data.getD j 0 else arrayMean wInput⟩

/-! ## Witnesses -/

/-- Witness for C1 at concrete inputs. -/
theorem claim_C1_shapes_witness :
    (wBatch.shape = (1:ℤ).toNat :: wInput.shape ∧
      wBatch.data.length = (1:ℤ).toNat * wInput.shape.prod) ∧
    (wChBatch.shape = (1:ℤ).toNat :: wInput2.shape ∧
      wChBatch.data.length = (1:ℤ).toNat * wInput2.shape.prod) ∧
    (wResult.shape = 1 :: wInput.shape ∧
      wResult.data.length = 1 * wInput.shape.prod) :=
  claim_C1_shapes wInput wInput2 wInput 1 1 1 1 wDraw wDraw wBatch wChBatch
    wMasks 1 "mean" wResult rfl rfl rfl rfl

/-- Witness for C2 at concrete inputs. -/
theorem claim_C2_mean_fill_witness :
    wResult.data.getD (0 * wInput.shape.prod + 1) 0 =
      if wMasks.data.getD (0 * wInput.shape.prod + 1) true
      then wInput.data.getD 1 0
      else wInput.data.sum / (wInput.data.length : ℚ) :=
  claim_C2_mean_fill wInput wMasks 1 wResult 0 1 rfl rfl (by decide) (by decide)

/-- Witness for C3 at concrete inputs. -/
theorem claim_C3_channel_uniform_witness :
    wChBatch.data.getD (0 * wInput2.shape.prod + 0) true
      = wChBatch.data.getD (0 * wInput2.shape.prod + 2) true :=
  claim_C3_channel_uniform wInput2 1 1 wDraw wChBatch 0 0 2 rfl (by decide)
    (by decide) (by decide) (by decide)

/-- Witness for C4 at concrete inputs. -/
theorem claim_C4_quantized_counts_witness :
    ((wBatch.data.drop (0 * wInput.shape.prod)).take wInput.shape.prod).count true
        = wInput.shape.prod - determineNumberMasked 1 wInput.shape.prod ∧
    ((wChBatch.data.drop (0 * (2 * 2))).take (2 * 2)).count true
        = 2 * (2 - determineNumberMasked 1 2) ∧
    10 - determineNumberMasked (1/10) 10 = 1 ∧
    10 - determineNumberMasked (667/1000) 10 = 7 ∧
    10 - determineNumberMasked (99/100) 10 = 9 ∧
    determineNumberMasked (3/10) 10 = 7 :=
  claim_C4_quantized_counts wInput wInput2 1 1 1 1 wDraw wDraw wBatch wChBatch
    0 0 2 2 (by decide) (fun _ => (by decide : ValidDraw [0, 1] 2)) rfl (by decide) rfl (by decide)
    (fun _ => (by decide : ValidDraw [0, 1] 2)) rfl (by decide)

/-- Witness for C5 at concrete inputs. -/
theorem claim_C5_probabilistic_witness :
    (∃ j < wInput.shape.prod,
      wBatch.data.getD (0 * wInput.shape.prod + j) true = true) ∧
    (∃ j < wInput.shape.prod,
      wBatch.data.getD (0 * wInput.shape.prod + j) true = false) ∧
    (∀ j < wInput.shape.prod,
      (∃ d b', (∀ m, ValidDraw (d m) wInput.shape.prod) ∧
        generate_masks wInput 1 1 d = .ok b' ∧
        b'.data.getD (0 * wInput.shape.prod + j) true = false) ∧
      (∃ d b', (∀ m, ValidDraw (d m) wInput.shape.prod) ∧
        generate_masks wInput 1 1 d = .ok b' ∧
        b'.data.getD (0 * wInput.shape.prod + j) true = true)) :=
  claim_C5_probabilistic wInput 1 1 wDraw wBatch 0 (by decide)
    (fun _ => (by decide : ValidDraw [0, 1] 2)) rfl (by decide)

/-- Witness for C6 at concrete inputs. -/
theorem claim_C6_invalid_argument_witness :
    (generate_masks wInput 1 1 wDraw = .error .invalidArgument ↔
      (1:ℚ) ≤ 0 ∨ 1 < (1:ℚ) ∨ (1:ℤ) < 0) ∧
    (0 < (1:ℚ) → (1:ℚ) ≤ 1 →
      generate_masks wInput 0 1 wDraw = .ok ⟨0 :: wInput.shape, []⟩) :=
  claim_C6_invalid_argument wInput 1 1 wDraw (by decide)

/-- Witness for C7 at concrete inputs. -/
theorem claim_C7_unknown_mask_type_witness :
    ("zero" ≠ "mean" → mask_data wInput wMasks "zero" = .error .unknownMaskType) ∧
    mask_data wInput wMasks "mean" ≠ .error .unknownMaskType :=
  claim_C7_unknown_mask_type wInput wMasks 1 "zero" rfl

/-- Witness for C9 at concrete inputs: two same-shape inputs with different
values. -/
theorem claim_C9_shape_only_witness :
    generate_masks wInput 1 1 wDraw = generate_masks ⟨[2], [9, 9]⟩ 1 1 wDraw :=
  claim_C9_shape_only wInput ⟨[2], [9, 9]⟩ 1 1 wDraw rfl

/-- Witness for C10 at concrete inputs. -/
theorem claim_C10_always_masks_witness :
    ((wBatch.data.drop (0 * wInput.shape.prod)).take wInput.shape.prod).count false
        = determineNumberMasked 1 wInput.shape.prod ∧
    1 ≤ determineNumberMasked 1 wInput.shape.prod ∧
    determineNumberMasked (99/100) 10 = 1 :=
  claim_C10_always_masks wInput 1 1 wDraw wBatch 0 (by decide)
    (fun _ => (by decide : ValidDraw [0, 1] 2)) rfl (by decide)

end Maskers

